import Mathlib

/-!
Verification of the JSON viewer tree-expansion/pagination engine
(`src/app/ui/components/json-viewer.js`).

The engine is embedded shallowly: the JSON value is a closed inductive
type, the per-component React state (`expanded`, `hasBeenExpanded`,
`page`) becomes an explicit store keyed by node path, and the `render`
methods of `JSONViewer` / `JSONViewerObj` become pure functions from
(value, store) to a list of display rows.
-/

/-- A parsed JSON value (the output domain of `JSON.parse`).  Object
fields are kept as an ordered association list; for values produced by
`JSON.parse` the field order is the JavaScript own-property order
(canonical array-index keys ascending first, then remaining keys in
insertion order), which `jsonParseValue` below establishes. -/
inductive JSONValue where
  | null
  | bool (b : Bool)
  | num (n : Int)
  | str (s : String)
  | arr (xs : List JSONValue)
  | obj (kvs : List (String × JSONValue))

/-- Constant `PAGE_SIZE = 25` (json-viewer.js line 6). -/
def PAGE_SIZE : Nat := 25

/-- Constant `MAX_VALUE_LENGTH = 100` (json-viewer.js line 7). -/
def MAX_VALUE_LENGTH : Nat := 100

/-- Function `getType` (json-viewer.js lines 102-120): the tag name used for the
value-type CSS class.  The `JSONValue` type is closed, so the JS
`default: 'unknown'` branch has no counterpart. -/
def getType : JSONValue → String
  | .bool _ => "boolean"
  | .obj _ => "object"
  | .arr _ => "array"
  | .num _ => "number"
  | .str _ => "string"
  | .null => "null"

/-- JavaScript string conversion `` `${obj}` `` (line 169) for the
scalar values that reach it; `getValue` filters out arrays and objects
before this conversion, so their images are irrelevant. -/
def stringify : JSONValue → String
  | .null => "null"
  | .bool b => if b then "true" else "false"
  | .num n => toString n
  | .str s => s
  | .arr _ => ""
  | .obj _ => ""

/-- Function `isCollapsable` (json-viewer.js lines 122-133). -/
def isCollapsable : JSONValue → Bool
  | .str s => s.length > MAX_VALUE_LENGTH
  | .arr xs => xs.length > 0
  | .obj kvs => kvs.length > 0
  | _ => false

/-- The value cell a row carries: nothing (expanded non-empty
collection), an abbreviated collection marker with its size comment, or
a scalar's display text tagged with its type class. -/
inductive Cell where
  | noCell
  | collection (abbr : String) (comment : String)
  | scalar (ty : String) (text : String)
deriving DecidableEq, Repr

/-- Function `getValue` (json-viewer.js lines 135-185): the value cell for a
node, given whether the node is collapsed. -/
def getValue (obj : JSONValue) (collapsed : Bool) : Cell :=
  match obj with
  | .arr xs =>
    let n := xs.length
    let comment := if n > 0 then "// " ++ toString n ++ " item" ++ (if n == 1 then "" else "s") else ""
    let abbr := if collapsed && n > 0 then "[…]" else "[]"
    if n == 0 then Cell.collection abbr comment
    else if collapsed then Cell.collection abbr comment
    else Cell.noCell
  | .obj kvs =>
    let n := kvs.length
    let comment := if n > 0 then "// " ++ toString n ++ " key" ++ (if n == 1 then "" else "s") else ""
    let abbr := if collapsed && n > 0 then "\x7b…\x7d" else "\x7b\x7d"
    if n == 0 then Cell.collection abbr comment
    else if collapsed then Cell.collection abbr comment
    else Cell.noCell
  | v =>
    let strObj := stringify v
    let collapsable := strObj.length > MAX_VALUE_LENGTH
    let displayValue :=
      if collapsable && collapsed then
        let halfOfMax := MAX_VALUE_LENGTH / 2 - 5
        strObj.take halfOfMax ++ "…" ++ strObj.drop (strObj.length - halfOfMax)
      else strObj
    Cell.scalar (getType v) displayValue

/-- A node path: the `paths` prop of `JSONViewerObj`, a list of segments
of the form `"[3]"` (array index) or `".key"` (object key).  The empty
list is the root. -/
abbrev NodePath := List String

/-- The component state of one `JSONViewerObj` (json-viewer.js lines
84-88). -/
structure ExpansionState where
  expanded : Bool
  hasBeenExpanded : Bool
  page : Nat
deriving DecidableEq, Repr

/-- The constructor's initial state (lines 92-100): the root starts
expanded, everything else collapsed. -/
def initState (paths : NodePath) : ExpansionState :=
  { expanded := paths.length == 0, hasBeenExpanded := false, page := 0 }

/-- All component states, keyed by node path. -/
abbrev Store := NodePath → ExpansionState

/-- A store in which no node has been interacted with. -/
def initStore : Store := initState

/-- Handler `handleClickKey` (lines 191-196): flip `expanded`, latch
`hasBeenExpanded`. -/
def toggleState (st : ExpansionState) : ExpansionState :=
  { st with expanded := !st.expanded, hasBeenExpanded := true }

/-- Handler `handleNextPage` (lines 198-200): advance one page. -/
def nextPageState (st : ExpansionState) : ExpansionState :=
  { st with page := st.page + 1 }

/-- A user interaction: clicking a key cell, or clicking a pagination
button, each targeting one node. -/
inductive UIAction where
  | toggle (path : NodePath)
  | nextPage (path : NodePath)

/-- Update the state of a single node. -/
def updateAt (s : Store) (p : NodePath) (f : ExpansionState → ExpansionState) : Store :=
  fun q => if q = p then f (s q) else s q

/-- Effect of one interaction on the store. -/
def applyAction (a : UIAction) (s : Store) : Store :=
  match a with
  | .toggle p => updateAt s p toggleState
  | .nextPage p => updateAt s p nextPageState

/-- Effect of a sequence of interactions, oldest first. -/
def applyActions (acts : List UIAction) (s : Store) : Store :=
  acts.foldl (fun st a => applyAction a st) s

/-- Data of one `<tr>` emitted for a tree node: its path, the label cell
(absent for the synthetic root), whether the key cell has a click
handler (`collapsable`), the `--collapsed` class flag, the `hide` class
flag, and the value cell. -/
structure NodeRowData where
  path : NodePath
  label : Option String
  clickable : Bool
  collapsed : Bool
  hidden : Bool
  cell : Cell
deriving DecidableEq, Repr

/-- One display row: a node's row, the pagination row of an array
(json-viewer.js lines 252-266; it carries the first hidden index, the
last index and the button caption, and never carries the `hide` class),
or the parse-failure fallback row. -/
inductive Row where
  | node (d : NodeRowData)
  | pagination (parent : NodePath) (rangeStart : Nat) (rangeStop : Nat) (caption : String)
  | error (msg : String)
deriving DecidableEq, Repr

mutual

/-- Method `JSONViewerObj.render` (json-viewer.js lines 202-320): the rows for
the subtree rooted at `value`, which sits at `paths` with the given
`label` prop (`none` at the root) and `hide` prop. -/
def renderVal (store : Store) (value : JSONValue) (paths : NodePath)
    (label : Option String) (hide : Bool) : List Row :=
  let st := store paths
  let collapsable := isCollapsable value
  let collapsed := !st.expanded
  match value with
  | .arr xs =>
    let ownRow : List Row :=
      match label with
      | some l => [Row.node { path := paths, label := some l, clickable := collapsable,
                              collapsed := collapsed, hidden := hide,
                              cell := getValue (.arr xs) collapsed }]
      | none => []
    let childRows : List Row :=
      if !collapsed || st.hasBeenExpanded then
        let maxItem := PAGE_SIZE * (st.page + 1)
        renderElems store xs 0 maxItem paths (hide || collapsed) ++
        (if xs.length > maxItem then
          let nextBatch := min (xs.length - maxItem) PAGE_SIZE
          let caption := "Show " ++
            (if nextBatch == PAGE_SIZE then toString nextBatch ++ " More" else "Remaining")
          [Row.pagination paths maxItem (xs.length - 1) caption]
        else [])
      else []
    ownRow ++ childRows
  | .obj kvs =>
    let ownRow : List Row :=
      match label with
      | some l => [Row.node { path := paths, label := some l, clickable := collapsable,
                              collapsed := collapsed, hidden := hide,
                              cell := getValue (.obj kvs) collapsed }]
      | none => []
    let childRows : List Row :=
      if !collapsed || st.hasBeenExpanded then
        renderFields store kvs paths (hide || collapsed)
      else []
    ownRow ++ childRows
  | v =>
    [Row.node { path := paths,
                label := if paths.length > 0 then label else none,
                clickable := collapsable, collapsed := collapsed, hidden := hide,
                cell := getValue v collapsed }]

/-- The loop over array elements (lines 236-248): recurse on each
element whose index is below the pagination cap `maxItem`. -/
def renderElems (store : Store) (xs : List JSONValue) (idx : Nat) (maxItem : Nat)
    (paths : NodePath) (hide : Bool) : List Row :=
  match xs with
  | [] => []
  | x :: rest =>
    if idx < maxItem then
      renderVal store x (paths ++ ["[" ++ toString idx ++ "]"]) (some (toString idx)) hide ++
      renderElems store rest (idx + 1) maxItem paths hide
    else []

/-- The loop over object fields (lines 287-299): recurse on each field
in the object's own-property order. -/
def renderFields (store : Store) (kvs : List (String × JSONValue)) (paths : NodePath)
    (hide : Bool) : List Row :=
  match kvs with
  | [] => []
  | (k, v) :: rest =>
    renderVal store v (paths ++ ["." ++ k]) (some k) hide ++
    renderFields store rest paths hide

end

/-- Method `JSONViewer.render` (json-viewer.js lines 44-73), with the
`JSON.parse`/`try`/`catch` of lines 51-64 abstracted as a `parse`
function returning `none` on a parse exception: the body either renders
the parsed value from the root or the fixed fallback row. -/
def viewerRender (parse : String → Option JSONValue) (body : String) : List Row :=
  match parse body with
  | some v => renderVal initStore v [] none false
  | none => [Row.error "Uh Oh!"]

/-- The numeric value of a decimal digit character, if it is one. -/
def charDigit (c : Char) : Option Nat :=
  let n := c.toNat
  if 48 ≤ n && n ≤ 57 then some (n - 48) else none

/-- Accumulate the decimal value of a character list, failing on the
first non-digit. -/
def digitsNat (acc : Nat) : List Char → Option Nat
  | [] => some acc
  | c :: rest =>
    match charDigit c with
    | some d => digitsNat (acc * 10 + d) rest
    | none => none

/-- The decimal value of a non-empty all-digit string. -/
def strNat (s : String) : Option Nat :=
  match s.data with
  | [] => none
  | cs => digitsNat 0 cs

/-- Whether a key string is a JavaScript array index: the canonical
decimal form of an integer in `[0, 2^32 - 1)`.  Such own-property keys
are enumerated first, in ascending numeric order, by `Object.keys`. -/
def isArrayIndex (s : String) : Bool :=
  match strNat s with
  | some n => toString n == s && n < 4294967295
  | none => false

/-- Insert a key-value pair into a list sorted by ascending numeric key
value. -/
def insertByIdx (kv : String × JSONValue) : List (String × JSONValue) → List (String × JSONValue)
  | [] => [kv]
  | kv₂ :: rest =>
    if ((strNat kv.1).getD 0) ≤ ((strNat kv₂.1).getD 0) then kv :: kv₂ :: rest
    else kv₂ :: insertByIdx kv rest

/-- Insertion sort by ascending numeric key value. -/
def sortByIdx : List (String × JSONValue) → List (String × JSONValue)
  | [] => []
  | kv :: rest => insertByIdx kv (sortByIdx rest)

/-- The JavaScript own-property order of an object created by assigning
the pairs of `kvs` in list order: canonical array-index keys in
ascending numeric order first, then the remaining keys in insertion
order. -/
def jsKeys (kvs : List (String × JSONValue)) : List (String × JSONValue) :=
  sortByIdx (kvs.filter (fun kv => isArrayIndex kv.1)) ++
  kvs.filter (fun kv => !isArrayIndex kv.1)

mutual

/-- The JavaScript value `JSON.parse` builds from a document whose raw
field lists are those of the argument: every object's fields are stored
in JavaScript own-property order (`jsKeys`). -/
def jsonParseValue : JSONValue → JSONValue
  | .null => .null
  | .bool b => .bool b
  | .num n => .num n
  | .str s => .str s
  | .arr xs => .arr (jsonParseList xs)
  | .obj kvs => .obj (jsKeys (jsonParseFields kvs))

def jsonParseList : List JSONValue → List JSONValue
  | [] => []
  | x :: rest => jsonParseValue x :: jsonParseList rest

def jsonParseFields : List (String × JSONValue) → List (String × JSONValue)
  | [] => []
  | (k, v) :: rest => (k, jsonParseValue v) :: jsonParseFields rest

end

/-- Mark a node row hidden; pagination and error rows carry no `hide`
class and are unchanged. -/
def setHidden : Row → Row
  | .node d => .node { d with hidden := true }
  | r => r

/-- Whether a value takes the scalar branch of `render` (neither array
nor object). -/
def isScalar : JSONValue → Bool
  | .arr _ => false
  | .obj _ => false
  | _ => true

/-- The store after `p` reveal-more actions on the root node. -/
def pageStore (p : Nat) : Store :=
  applyActions (List.replicate p (UIAction.nextPage [])) initStore

/-- The row rendered for the `i`-th element of an array of nulls sitting
at the root. -/
def c1Row (i : Nat) : Row :=
  Row.node { path := ["[" ++ toString i ++ "]"], label := some (toString i), clickable := false,
             collapsed := true, hidden := false, cell := Cell.scalar "null" "null" }

/-- The label cell of a row, if it is a node row. -/
def rowLabel : Row → Option String
  | .node d => d.label
  | _ => none

/-! ### String helpers -/

theorem strLength_take (s : String) (n : Nat) : (s.take n).length = min n s.length := by
  show (s.take n).data.length = min n s.data.length
  rw [String.data_take, List.length_take]

theorem strLength_drop (s : String) (n : Nat) : (s.drop n).length = s.length - n := by
  show (s.drop n).data.length = s.data.length - n
  rw [String.data_drop, List.length_drop]

theorem strTake_append_drop (s : String) (n : Nat) : s.take n ++ s.drop n = s := by
  apply String.ext
  show (s.take n ++ s.drop n).data = s.data
  rw [String.data_append, String.data_take, String.data_drop, List.take_append_drop]

/-! ### Evaluation of `getValue` on strings -/

theorem getValue_str_collapsed (s : String) (h : s.length > 100) :
    getValue (.str s) true = Cell.scalar "string" (s.take 45 ++ "…" ++ s.drop (s.length - 45)) := by
  simp only [getValue, stringify, getType, MAX_VALUE_LENGTH]
  rw [if_pos (by simp [h])]

theorem getValue_str_expanded (s : String) :
    getValue (.str s) false = Cell.scalar "string" s := by
  simp [getValue, stringify, getType]

/-- C2: a string value strictly longer than 100 characters renders, when
collapsed, as the first 45 characters, one ellipsis character, and the
last 45 characters (total length 91, head an exact prefix and tail an
exact suffix of the original); when not collapsed the full string is
shown. -/
theorem C2_string_truncation (s : String) (h : s.length > 100) :
    getValue (.str s) true = Cell.scalar "string" (s.take 45 ++ "…" ++ s.drop (s.length - 45))
    ∧ (s.take 45 ++ "…" ++ s.drop (s.length - 45)).length = 91
    ∧ (s.take 45).length = 45
    ∧ (s.drop (s.length - 45)).length = 45
    ∧ (∃ t, s = s.take 45 ++ t)
    ∧ (∃ t, s = t ++ s.drop (s.length - 45))
    ∧ getValue (.str s) false = Cell.scalar "string" s := by
  refine ⟨getValue_str_collapsed s h, ?_, ?_, ?_, ?_, ?_, getValue_str_expanded s⟩
  · rw [String.length_append, String.length_append, strLength_take, strLength_drop]
    have he : ("…" : String).length = 1 := by decide
    rw [he]
    omega
  · rw [strLength_take]; omega
  · rw [strLength_drop]; omega
  · exact ⟨s.drop 45, (strTake_append_drop s 45).symm⟩
  · exact ⟨s.take (s.length - 45), (strTake_append_drop s (s.length - 45)).symm⟩

set_option maxRecDepth 4000 in
/-- Witness for C2 at a concrete collapsed 250-character string. -/
theorem C2_string_truncation_witness :
    (String.mk (List.replicate 250 'x')).length > 100
    ∧ (getValue (.str (String.mk (List.replicate 250 'x'))) true =
        Cell.scalar "string"
          ((String.mk (List.replicate 250 'x')).take 45 ++ "…" ++
            (String.mk (List.replicate 250 'x')).drop ((String.mk (List.replicate 250 'x')).length - 45))
      ∧ ((String.mk (List.replicate 250 'x')).take 45 ++ "…" ++
          (String.mk (List.replicate 250 'x')).drop ((String.mk (List.replicate 250 'x')).length - 45)).length = 91
      ∧ ((String.mk (List.replicate 250 'x')).take 45).length = 45
      ∧ ((String.mk (List.replicate 250 'x')).drop ((String.mk (List.replicate 250 'x')).length - 45)).length = 45
      ∧ (∃ t, String.mk (List.replicate 250 'x') = (String.mk (List.replicate 250 'x')).take 45 ++ t)
      ∧ (∃ t, String.mk (List.replicate 250 'x') = t ++ (String.mk (List.replicate 250 'x')).drop ((String.mk (List.replicate 250 'x')).length - 45))
      ∧ getValue (.str (String.mk (List.replicate 250 'x'))) false =
          Cell.scalar "string" (String.mk (List.replicate 250 'x'))) :=
  ⟨by decide, C2_string_truncation (String.mk (List.replicate 250 'x')) (by decide)⟩

/-- C8: a value is collapsible exactly when it is a string longer than
100 characters, a non-empty array, or an object with at least one
key. -/
theorem C8_isCollapsable_characterization (v : JSONValue) :
    isCollapsable v = true ↔
      ((∃ s, v = .str s ∧ s.length > 100)
       ∨ (∃ xs, v = .arr xs ∧ xs ≠ [])
       ∨ (∃ kvs, v = .obj kvs ∧ kvs ≠ [])) := by
  cases v with
  | null => simp [isCollapsable]
  | bool b => simp [isCollapsable]
  | num n => simp [isCollapsable]
  | str s => simp [isCollapsable, MAX_VALUE_LENGTH]
  | arr xs => simp [isCollapsable, List.length_pos]
  | obj kvs => simp [isCollapsable, List.length_pos]

/-! ### Unfolding lemmas for the renderer -/

theorem renderVal_arr (store : Store) (xs : List JSONValue) (paths : NodePath)
    (label : Option String) (hide : Bool) :
    renderVal store (.arr xs) paths label hide =
      (match label with
       | some l => [Row.node { path := paths, label := some l, clickable := isCollapsable (.arr xs),
                               collapsed := !(store paths).expanded, hidden := hide,
                               cell := getValue (.arr xs) (!(store paths).expanded) }]
       | none => []) ++
      (if (store paths).expanded || (store paths).hasBeenExpanded then
         renderElems store xs 0 (PAGE_SIZE * ((store paths).page + 1)) paths
           (hide || !(store paths).expanded) ++
         (if xs.length > PAGE_SIZE * ((store paths).page + 1) then
           [Row.pagination paths (PAGE_SIZE * ((store paths).page + 1)) (xs.length - 1)
             ("Show " ++
               (if min (xs.length - PAGE_SIZE * ((store paths).page + 1)) PAGE_SIZE == PAGE_SIZE
                then toString (min (xs.length - PAGE_SIZE * ((store paths).page + 1)) PAGE_SIZE) ++ " More"
                else "Remaining"))]
          else [])
       else []) := by
  simp only [renderVal, Bool.not_not]

theorem renderVal_obj (store : Store) (kvs : List (String × JSONValue)) (paths : NodePath)
    (label : Option String) (hide : Bool) :
    renderVal store (.obj kvs) paths label hide =
      (match label with
       | some l => [Row.node { path := paths, label := some l, clickable := isCollapsable (.obj kvs),
                               collapsed := !(store paths).expanded, hidden := hide,
                               cell := getValue (.obj kvs) (!(store paths).expanded) }]
       | none => []) ++
      (if (store paths).expanded || (store paths).hasBeenExpanded then
         renderFields store kvs paths (hide || !(store paths).expanded)
       else []) := by
  simp only [renderVal, Bool.not_not]

theorem renderVal_scalar (store : Store) (v : JSONValue) (paths : NodePath)
    (label : Option String) (hide : Bool) (hv : isScalar v = true) :
    renderVal store v paths label hide =
      [Row.node { path := paths, label := if paths.length > 0 then label else none,
                  clickable := isCollapsable v, collapsed := !(store paths).expanded,
                  hidden := hide, cell := getValue v (!(store paths).expanded) }] := by
  cases v <;> simp_all [renderVal, isScalar]

theorem renderElems_nil (store : Store) (idx maxItem : Nat) (paths : NodePath) (hide : Bool) :
    renderElems store [] idx maxItem paths hide = [] := by
  simp [renderElems]

theorem renderElems_cons (store : Store) (x : JSONValue) (rest : List JSONValue)
    (idx maxItem : Nat) (paths : NodePath) (hide : Bool) :
    renderElems store (x :: rest) idx maxItem paths hide =
      if idx < maxItem then
        renderVal store x (paths ++ ["[" ++ toString idx ++ "]"]) (some (toString idx)) hide ++
        renderElems store rest (idx + 1) maxItem paths hide
      else [] := by
  simp [renderElems]

theorem renderFields_nil (store : Store) (paths : NodePath) (hide : Bool) :
    renderFields store [] paths hide = [] := by
  simp [renderFields]

theorem renderFields_cons (store : Store) (k : String) (v : JSONValue)
    (rest : List (String × JSONValue)) (paths : NodePath) (hide : Bool) :
    renderFields store ((k, v) :: rest) paths hide =
      renderVal store v (paths ++ ["." ++ k]) (some k) hide ++
      renderFields store rest paths hide := by
  simp [renderFields]

/-! ### Shape of a labelled node's row list -/

theorem renderVal_head (store : Store) (v : JSONValue) (paths : NodePath)
    (l : String) (hide : Bool) :
    ∃ d rest, renderVal store v paths (some l) hide = Row.node d :: rest
      ∧ d.path = paths ∧ d.clickable = isCollapsable v ∧ d.hidden = hide
      ∧ d.collapsed = !(store paths).expanded := by
  cases v with
  | arr xs =>
    rw [renderVal_arr]
    exact ⟨_, _, rfl, rfl, rfl, rfl, rfl⟩
  | obj kvs =>
    rw [renderVal_obj]
    exact ⟨_, _, rfl, rfl, rfl, rfl, rfl⟩
  | null =>
    rw [renderVal_scalar store JSONValue.null paths (some l) hide rfl]
    exact ⟨_, _, rfl, rfl, rfl, rfl, rfl⟩
  | bool b =>
    rw [renderVal_scalar store (JSONValue.bool b) paths (some l) hide rfl]
    exact ⟨_, _, rfl, rfl, rfl, rfl, rfl⟩
  | num n =>
    rw [renderVal_scalar store (JSONValue.num n) paths (some l) hide rfl]
    exact ⟨_, _, rfl, rfl, rfl, rfl, rfl⟩
  | str s =>
    rw [renderVal_scalar store (JSONValue.str s) paths (some l) hide rfl]
    exact ⟨_, _, rfl, rfl, rfl, rfl, rfl⟩

theorem renderVal_labelled_ne_nil (store : Store) (v : JSONValue) (paths : NodePath)
    (l : String) (hide : Bool) : renderVal store v paths (some l) hide ≠ [] := by
  obtain ⟨d, rest, heq, -⟩ := renderVal_head store v paths l hide
  simp [heq]

/-! ### The renderer never emits an error row -/

mutual

theorem renderVal_no_error (store : Store) (v : JSONValue) (paths : NodePath)
    (label : Option String) (hide : Bool) (msg : String) :
    Row.error msg ∉ renderVal store v paths label hide := by
  cases v with
  | arr xs =>
    rw [renderVal_arr]
    intro hmem
    rcases List.mem_append.1 hmem with h1 | h2
    · cases label <;> simp_all
    · split at h2
      · rcases List.mem_append.1 h2 with h3 | h4
        · exact renderElems_no_error store xs 0 _ paths _ msg h3
        · split at h4 <;> simp_all
      · simp_all
  | obj kvs =>
    rw [renderVal_obj]
    intro hmem
    rcases List.mem_append.1 hmem with h1 | h2
    · cases label <;> simp_all
    · split at h2
      · exact renderFields_no_error store kvs paths _ msg h2
      · simp_all
  | null => simp [renderVal_scalar store JSONValue.null paths label hide rfl]
  | bool b => simp [renderVal_scalar store (JSONValue.bool b) paths label hide rfl]
  | num n => simp [renderVal_scalar store (JSONValue.num n) paths label hide rfl]
  | str s => simp [renderVal_scalar store (JSONValue.str s) paths label hide rfl]

theorem renderElems_no_error (store : Store) (xs : List JSONValue) (idx maxItem : Nat)
    (paths : NodePath) (hide : Bool) (msg : String) :
    Row.error msg ∉ renderElems store xs idx maxItem paths hide := by
  cases xs with
  | nil => simp [renderElems_nil]
  | cons x rest =>
    rw [renderElems_cons]
    split
    · intro hmem
      rcases List.mem_append.1 hmem with h1 | h2
      · exact renderVal_no_error store x _ _ hide msg h1
      · exact renderElems_no_error store rest (idx + 1) maxItem paths hide msg h2
    · simp

theorem renderFields_no_error (store : Store) (kvs : List (String × JSONValue))
    (paths : NodePath) (hide : Bool) (msg : String) :
    Row.error msg ∉ renderFields store kvs paths hide := by
  cases kvs with
  | nil => simp [renderFields_nil]
  | cons kv rest =>
    obtain ⟨k, v⟩ := kv
    rw [renderFields_cons]
    intro hmem
    rcases List.mem_append.1 hmem with h1 | h2
    · exact renderVal_no_error store v _ _ hide msg h1
    · exact renderFields_no_error store rest paths hide msg h2

end

/-- C7: when the body does not parse, the output is exactly one error
row with the fixed text "Uh Oh!" and no tree traversal happens; when it
parses, no error row is ever produced (and `viewerRender` is a total
function, so no exception reaches the caller). -/
theorem C7_parse_failure (parse : String → Option JSONValue) (body : String) :
    (parse body = none → viewerRender parse body = [Row.error "Uh Oh!"])
    ∧ (∀ v, parse body = some v → ∀ msg, Row.error msg ∉ viewerRender parse body) := by
  constructor
  · intro h
    simp [viewerRender, h]
  · intro v h msg
    simp only [viewerRender, h]
    exact renderVal_no_error initStore v [] none false msg

/-- Witness for C7: a parser that rejects the malformed body yields the
single fallback row. -/
theorem C7_parse_failure_witness :
    viewerRender (fun _ => none) "\x7bnot json" = [Row.error "Uh Oh!"] :=
  (C7_parse_failure (fun _ => none) "\x7bnot json").1 rfl

/-! ### Store lemmas -/

theorem updateAt_self (s : Store) (p : NodePath) (f : ExpansionState → ExpansionState) :
    updateAt s p f p = f (s p) := by
  simp [updateAt]

theorem updateAt_other (s : Store) (p : NodePath) (f : ExpansionState → ExpansionState)
    (q : NodePath) (h : q ≠ p) : updateAt s p f q = s q := by
  simp [updateAt, h]

/-! ### The rendered rows depend only on the store below the node -/

mutual

theorem renderVal_congr (store₁ store₂ : Store) (v : JSONValue) (paths : NodePath)
    (label : Option String) (hide : Bool)
    (h : ∀ r, store₁ (paths ++ r) = store₂ (paths ++ r)) :
    renderVal store₁ v paths label hide = renderVal store₂ v paths label hide := by
  have hst : store₁ paths = store₂ paths := by simpa using h []
  cases v with
  | arr xs =>
    rw [renderVal_arr, renderVal_arr, hst]
    congr 1
    split
    · congr 1
      exact renderElems_congr store₁ store₂ xs 0 _ paths _ (fun r hr => h r)
    · rfl
  | obj kvs =>
    rw [renderVal_obj, renderVal_obj, hst]
    congr 1
    split
    · exact renderFields_congr store₁ store₂ kvs paths _ (fun r hr => h r)
    · rfl
  | null =>
    rw [renderVal_scalar store₁ JSONValue.null paths label hide rfl,
        renderVal_scalar store₂ JSONValue.null paths label hide rfl, hst]
  | bool b =>
    rw [renderVal_scalar store₁ (JSONValue.bool b) paths label hide rfl,
        renderVal_scalar store₂ (JSONValue.bool b) paths label hide rfl, hst]
  | num n =>
    rw [renderVal_scalar store₁ (JSONValue.num n) paths label hide rfl,
        renderVal_scalar store₂ (JSONValue.num n) paths label hide rfl, hst]
  | str s =>
    rw [renderVal_scalar store₁ (JSONValue.str s) paths label hide rfl,
        renderVal_scalar store₂ (JSONValue.str s) paths label hide rfl, hst]

theorem renderElems_congr (store₁ store₂ : Store) (xs : List JSONValue) (idx maxItem : Nat)
    (paths : NodePath) (hide : Bool)
    (h : ∀ r, r ≠ [] → store₁ (paths ++ r) = store₂ (paths ++ r)) :
    renderElems store₁ xs idx maxItem paths hide = renderElems store₂ xs idx maxItem paths hide := by
  cases xs with
  | nil => rw [renderElems_nil, renderElems_nil]
  | cons x rest =>
    rw [renderElems_cons, renderElems_cons]
    split
    · congr 1
      · apply renderVal_congr
        intro r
        rw [List.append_assoc]
        exact h _ (by simp)
      · exact renderElems_congr store₁ store₂ rest (idx + 1) maxItem paths hide h
    · rfl

theorem renderFields_congr (store₁ store₂ : Store) (kvs : List (String × JSONValue))
    (paths : NodePath) (hide : Bool)
    (h : ∀ r, r ≠ [] → store₁ (paths ++ r) = store₂ (paths ++ r)) :
    renderFields store₁ kvs paths hide = renderFields store₂ kvs paths hide := by
  cases kvs with
  | nil => rw [renderFields_nil, renderFields_nil]
  | cons kv rest =>
    obtain ⟨k, v⟩ := kv
    rw [renderFields_cons, renderFields_cons]
    congr 1
    · apply renderVal_congr
      intro r
      rw [List.append_assoc]
      exact h _ (by simp)
    · exact renderFields_congr store₁ store₂ rest paths hide h

end

/-! ### Rendering with the hide flag set marks every node row hidden -/

mutual

theorem renderVal_hide (store : Store) (v : JSONValue) (paths : NodePath)
    (label : Option String) (hide : Bool) :
    renderVal store v paths label true = (renderVal store v paths label hide).map setHidden := by
  cases v with
  | arr xs =>
    rw [renderVal_arr, renderVal_arr, List.map_append]
    congr 1
    · cases label <;> simp [setHidden]
    · split
      · rw [List.map_append]
        congr 1
        · rw [Bool.true_or]
          exact renderElems_hide store xs 0 _ paths _
        · split <;> simp [setHidden]
      · rfl
  | obj kvs =>
    rw [renderVal_obj, renderVal_obj, List.map_append]
    congr 1
    · cases label <;> simp [setHidden]
    · split
      · rw [Bool.true_or]
        exact renderFields_hide store kvs paths _
      · rfl
  | null =>
    rw [renderVal_scalar store JSONValue.null paths label true rfl,
        renderVal_scalar store JSONValue.null paths label hide rfl]
    simp [setHidden]
  | bool b =>
    rw [renderVal_scalar store (JSONValue.bool b) paths label true rfl,
        renderVal_scalar store (JSONValue.bool b) paths label hide rfl]
    simp [setHidden]
  | num n =>
    rw [renderVal_scalar store (JSONValue.num n) paths label true rfl,
        renderVal_scalar store (JSONValue.num n) paths label hide rfl]
    simp [setHidden]
  | str s =>
    rw [renderVal_scalar store (JSONValue.str s) paths label true rfl,
        renderVal_scalar store (JSONValue.str s) paths label hide rfl]
    simp [setHidden]

theorem renderElems_hide (store : Store) (xs : List JSONValue) (idx maxItem : Nat)
    (paths : NodePath) (hide : Bool) :
    renderElems store xs idx maxItem paths true =
      (renderElems store xs idx maxItem paths hide).map setHidden := by
  cases xs with
  | nil => rw [renderElems_nil, renderElems_nil]; rfl
  | cons x rest =>
    rw [renderElems_cons, renderElems_cons]
    split
    · rw [List.map_append]
      congr 1
      · exact renderVal_hide store x _ _ hide
      · exact renderElems_hide store rest (idx + 1) maxItem paths hide
    · rfl

theorem renderFields_hide (store : Store) (kvs : List (String × JSONValue))
    (paths : NodePath) (hide : Bool) :
    renderFields store kvs paths true = (renderFields store kvs paths hide).map setHidden := by
  cases kvs with
  | nil => rw [renderFields_nil, renderFields_nil]; rfl
  | cons kv rest =>
    obtain ⟨k, v⟩ := kv
    rw [renderFields_cons, renderFields_cons, List.map_append]
    congr 1
    · exact renderVal_hide store v _ _ hide
    · exact renderFields_hide store rest paths hide

end

theorem append_ne_self (p r : NodePath) (hr : r ≠ []) : p ++ r ≠ p := by
  intro heq
  have hlen := congrArg List.length heq
  rw [List.length_append] at hlen
  have hr0 : r.length = 0 := by omega
  exact hr (List.eq_nil_of_length_eq_zero hr0)

/-- C5: toggling a currently-expanded node collapses it while keeping
`hasBeenExpanded` and its page; every other node's state is untouched;
the rendered subtree keeps the same number of rows, with the descendant
rows equal to the previous ones marked hidden, so every descendant node
row after the collapse carries `hidden = true`. -/
theorem C5_collapse_retention (store : Store) (p : NodePath) (l : String) (v : JSONValue)
    (hexp : (store p).expanded = true) :
    ((applyAction (.toggle p) store p).expanded = false
      ∧ (applyAction (.toggle p) store p).hasBeenExpanded = true
      ∧ (applyAction (.toggle p) store p).page = (store p).page)
    ∧ (∀ q, q ≠ p → applyAction (.toggle p) store q = store q)
    ∧ (renderVal (applyAction (.toggle p) store) v p (some l) false).length
        = (renderVal store v p (some l) false).length
    ∧ (renderVal (applyAction (.toggle p) store) v p (some l) false).drop 1
        = ((renderVal store v p (some l) false).drop 1).map setHidden
    ∧ (∀ d, Row.node d ∈ (renderVal (applyAction (.toggle p) store) v p (some l) false).drop 1 →
        d.hidden = true) := by
  have hself : applyAction (.toggle p) store p = toggleState (store p) := by
    simp [applyAction, updateAt_self]
  have h1 : (applyAction (.toggle p) store p).expanded = false := by
    rw [hself]; simp [toggleState, hexp]
  have h2 : (applyAction (.toggle p) store p).hasBeenExpanded = true := by
    rw [hself]; simp [toggleState]
  have h3 : (applyAction (.toggle p) store p).page = (store p).page := by
    rw [hself]; simp [toggleState]
  have hother : ∀ q, q ≠ p → applyAction (.toggle p) store q = store q := by
    intro q hq
    simp only [applyAction]
    exact updateAt_other store p toggleState q hq
  have hagree : ∀ r, r ≠ [] → applyAction (.toggle p) store (p ++ r) = store (p ++ r) :=
    fun r hr => hother (p ++ r) (append_ne_self p r hr)
  have hdrop : (renderVal (applyAction (.toggle p) store) v p (some l) false).drop 1
      = ((renderVal store v p (some l) false).drop 1).map setHidden := by
    cases v with
    | arr xs =>
      rw [renderVal_arr, renderVal_arr]
      simp only [List.singleton_append, List.drop_succ_cons, List.drop_zero]
      rw [h1, h2, h3, hexp]
      simp only [Bool.false_or, Bool.true_or, if_true, Bool.not_false, Bool.not_true,
        Bool.or_true, Bool.or_false]
      rw [List.map_append]
      congr 1
      · rw [renderElems_congr (applyAction (.toggle p) store) store xs 0 _ p true hagree]
        exact renderElems_hide store xs 0 _ p false
      · split <;> simp [setHidden]
    | obj kvs =>
      rw [renderVal_obj, renderVal_obj]
      simp only [List.singleton_append, List.drop_succ_cons, List.drop_zero]
      rw [h1, h2, hexp]
      simp only [Bool.false_or, Bool.true_or, if_true, Bool.not_false, Bool.not_true,
        Bool.or_true, Bool.or_false]
      rw [renderFields_congr (applyAction (.toggle p) store) store kvs p true hagree]
      exact renderFields_hide store kvs p false
    | null =>
      rw [renderVal_scalar _ JSONValue.null p (some l) false rfl,
          renderVal_scalar store JSONValue.null p (some l) false rfl]
      simp
    | bool b =>
      rw [renderVal_scalar _ (JSONValue.bool b) p (some l) false rfl,
          renderVal_scalar store (JSONValue.bool b) p (some l) false rfl]
      simp
    | num n =>
      rw [renderVal_scalar _ (JSONValue.num n) p (some l) false rfl,
          renderVal_scalar store (JSONValue.num n) p (some l) false rfl]
      simp
    | str s =>
      rw [renderVal_scalar _ (JSONValue.str s) p (some l) false rfl,
          renderVal_scalar store (JSONValue.str s) p (some l) false rfl]
      simp
  refine ⟨⟨h1, h2, h3⟩, hother, ?_, hdrop, ?_⟩
  · obtain ⟨d1, r1, he1, -⟩ := renderVal_head (applyAction (.toggle p) store) v p l false
    obtain ⟨d2, r2, he2, -⟩ := renderVal_head store v p l false
    have hr : r1 = r2.map setHidden := by
      have h := hdrop
      rw [he1, he2] at h
      simpa using h
    rw [he1, he2]
    simp [hr]
  · intro d hd
    rw [hdrop] at hd
    obtain ⟨r, hrmem, heq⟩ := List.mem_map.1 hd
    cases r with
    | node d' =>
      simp only [setHidden] at heq
      injection heq with h
      rw [← h]
    | pagination a b c e => simp [setHidden] at heq
    | error m => simp [setHidden] at heq

/-- Witness for C5: collapsing an expanded one-element array node keeps
its row count. -/
theorem C5_collapse_retention_witness :
    (renderVal (applyAction (.toggle [".a"]) (applyAction (UIAction.toggle [".a"]) initStore))
        (.arr [.null]) [".a"] (some "a") false).length
      = (renderVal (applyAction (UIAction.toggle [".a"]) initStore)
          (.arr [.null]) [".a"] (some "a") false).length :=
  (C5_collapse_retention (applyAction (UIAction.toggle [".a"]) initStore) [".a"] "a"
    (.arr [.null]) (by decide)).2.2.1

/-! ### Action lemmas -/

theorem applyActions_nil (s : Store) : applyActions [] s = s := rfl

theorem applyActions_cons (a : UIAction) (acts : List UIAction) (s : Store) :
    applyActions (a :: acts) s = applyActions acts (applyAction a s) := rfl

theorem applyAction_hBE_mono (a : UIAction) (store : Store) (p : NodePath)
    (h : (store p).hasBeenExpanded = true) :
    (applyAction a store p).hasBeenExpanded = true := by
  cases a with
  | toggle q =>
    by_cases hpq : p = q
    · subst hpq
      simp only [applyAction]
      rw [updateAt_self]
      rfl
    · simp only [applyAction]
      rw [updateAt_other store q toggleState p hpq]
      exact h
  | nextPage q =>
    by_cases hpq : p = q
    · subst hpq
      simp only [applyAction]
      rw [updateAt_self]
      exact h
    · simp only [applyAction]
      rw [updateAt_other store q nextPageState p hpq]
      exact h

theorem applyAction_page_mono (a : UIAction) (store : Store) (p : NodePath) :
    (store p).page ≤ (applyAction a store p).page := by
  cases a with
  | toggle q =>
    by_cases hpq : p = q
    · subst hpq
      simp only [applyAction]
      rw [updateAt_self]
      exact Nat.le_refl _
    · simp only [applyAction]
      rw [updateAt_other store q toggleState p hpq]
  | nextPage q =>
    by_cases hpq : p = q
    · subst hpq
      simp only [applyAction]
      rw [updateAt_self]
      exact Nat.le_succ _
    · simp only [applyAction]
      rw [updateAt_other store q nextPageState p hpq]

/-- C6: a toggle action flips `expanded` and latches `hasBeenExpanded`
(leaving `page` unchanged); `hasBeenExpanded` is monotonic under every
sequence of actions; and the first row a labelled node emits is
clickable exactly when the node is collapsible. -/
theorem C6_toggle_behavior :
    (∀ st, (toggleState st).expanded = !st.expanded ∧ (toggleState st).hasBeenExpanded = true
        ∧ (toggleState st).page = st.page)
    ∧ (∀ acts (store : Store) p, (store p).hasBeenExpanded = true →
        ((applyActions acts store) p).hasBeenExpanded = true)
    ∧ (∀ (store : Store) v paths l hide, ∃ d rest,
        renderVal store v paths (some l) hide = Row.node d :: rest
          ∧ d.clickable = isCollapsable v) := by
  refine ⟨fun st => ⟨rfl, rfl, rfl⟩, ?_, ?_⟩
  · intro acts
    induction acts with
    | nil => intro store p h; exact h
    | cons a acts ih =>
      intro store p h
      rw [applyActions_cons]
      exact ih (applyAction a store) p (applyAction_hBE_mono a store p h)
  · intro store v paths l hide
    obtain ⟨d, rest, heq, -, hc, -⟩ := renderVal_head store v paths l hide
    exact ⟨d, rest, heq, hc⟩

/-- Witness for C6: `hasBeenExpanded`, once set by a toggle, survives a
later action. -/
theorem C6_toggle_behavior_witness :
    ((applyActions [UIAction.nextPage []] (applyAction (UIAction.toggle [".k"]) initStore)) [".k"]).hasBeenExpanded = true :=
  C6_toggle_behavior.2.1 [UIAction.nextPage []] (applyAction (UIAction.toggle [".k"]) initStore)
    [".k"] (by decide)

/-- C9: `page` starts at 0 everywhere; the reveal-more action adds
exactly 1 to the target node's `page` and changes nothing else (other
nodes' states are untouched and `expanded`/`hasBeenExpanded` are
preserved); toggles never change `page`; and `page` is monotonically
non-decreasing under every action sequence. -/
theorem C9_page_monotone :
    (∀ p, (initStore p).page = 0)
    ∧ (∀ st, (nextPageState st).page = st.page + 1 ∧ (nextPageState st).expanded = st.expanded
        ∧ (nextPageState st).hasBeenExpanded = st.hasBeenExpanded)
    ∧ (∀ (store : Store) p, applyAction (.nextPage p) store p = nextPageState (store p))
    ∧ (∀ (store : Store) p q, q ≠ p → applyAction (.nextPage p) store q = store q)
    ∧ (∀ (store : Store) p q, (applyAction (.toggle p) store q).page = (store q).page)
    ∧ (∀ acts (store : Store) p, (store p).page ≤ ((applyActions acts store) p).page) := by
  refine ⟨fun p => rfl, fun st => ⟨rfl, rfl, rfl⟩, ?_, ?_, ?_, ?_⟩
  · intro store p
    simp only [applyAction]
    exact updateAt_self store p nextPageState
  · intro store p q hq
    simp only [applyAction]
    exact updateAt_other store p nextPageState q hq
  · intro store p q
    by_cases hpq : q = p
    · subst hpq
      simp only [applyAction]
      rw [updateAt_self]
      rfl
    · simp only [applyAction]
      rw [updateAt_other store p toggleState q hpq]
  · intro acts
    induction acts with
    | nil => intro store p; exact Nat.le_refl _
    | cons a acts ih =>
      intro store p
      rw [applyActions_cons]
      exact Nat.le_trans (applyAction_page_mono a store p) (ih (applyAction a store) p)

/-- Witness for C9: a reveal-more action on one node leaves another
node's state unchanged. -/
theorem C9_page_monotone_witness :
    applyAction (.nextPage ["[0]"]) initStore [".x"] = initStore [".x"] :=
  C9_page_monotone.2.2.2.1 initStore ["[0]"] [".x"] (by decide)

/-! ### Pagination of an array of nulls at the root -/

theorem applyActions_nextPageRoot (p : Nat) (s : Store) :
    applyActions (List.replicate p (UIAction.nextPage [])) s []
        = { s [] with page := (s []).page + p }
    ∧ ∀ q, q ≠ [] → applyActions (List.replicate p (UIAction.nextPage [])) s q = s q := by
  induction p generalizing s with
  | zero =>
    refine ⟨?_, fun q hq => rfl⟩
    simp [applyActions_nil]
  | succ p ih =>
    rw [List.replicate_succ]
    constructor
    · rw [applyActions_cons]
      rw [(ih (applyAction (.nextPage []) s)).1]
      have hroot : applyAction (.nextPage []) s [] = nextPageState (s []) := by
        simp only [applyAction]
        exact updateAt_self s [] nextPageState
      rw [hroot]
      simp only [nextPageState]
      congr 1
      omega
    · intro q hq
      rw [applyActions_cons]
      rw [(ih (applyAction (.nextPage []) s)).2 q hq]
      simp only [applyAction]
      exact updateAt_other s [] nextPageState q hq

theorem pageStore_root (p : Nat) :
    pageStore p [] = { expanded := true, hasBeenExpanded := false, page := p } := by
  have h := (applyActions_nextPageRoot p initStore).1
  rw [pageStore, h]
  simp [initStore, initState]

theorem pageStore_other (p : Nat) (q : NodePath) (hq : q ≠ []) :
    pageStore p q = initStore q :=
  (applyActions_nextPageRoot p initStore).2 q hq

theorem renderElems_replicate_null (store : Store)
    (hfresh : ∀ q, q ≠ [] → store q = initStore q) (n : Nat) :
    ∀ idx cap : Nat,
      renderElems store (List.replicate n .null) idx cap [] false
        = (List.range' idx (min n (cap - idx))).map c1Row := by
  induction n with
  | zero => intro idx cap; simp [renderElems_nil]
  | succ n ih =>
    intro idx cap
    rw [List.replicate_succ, renderElems_cons]
    by_cases h : idx < cap
    · rw [if_pos h]
      have hq : ([] ++ ["[" ++ toString idx ++ "]"] : NodePath) ≠ [] := by simp
      have hchild : renderVal store .null ([] ++ ["[" ++ toString idx ++ "]"])
          (some (toString idx)) false = [c1Row idx] := by
        rw [renderVal_scalar store .null _ _ _ rfl, hfresh _ hq]
        rfl
      rw [hchild, ih (idx + 1) cap]
      have hmin : min (n + 1) (cap - idx) = min n (cap - (idx + 1)) + 1 := by omega
      rw [hmin, List.range'_succ, List.map_cons]
      rfl
    · rw [if_neg h]
      have hmin : min (n + 1) (cap - idx) = 0 := by omega
      rw [hmin]
      rfl

/-- C1: for a root array whose children are rendered, page `p` shows
elements `0 … min(n, 25·(p+1)) − 1` followed by one pagination row
exactly when `25·(p+1) < n`, captioned "Show 25 More" when the next
batch `min(n − 25·(p+1), 25)` is a full page and "Show Remaining"
otherwise; in particular, for 60 elements: page 0 shows indices 0–24
plus "Show 25 More", page 1 shows 0–49 plus a row for range 50…59
captioned "Show Remaining", and page 2 shows all 60 with no pagination
row. -/
theorem C1_array_pagination :
    (∀ n p : Nat,
      renderVal (pageStore p) (.arr (List.replicate n .null)) [] none false
        = (List.range' 0 (min n (25 * (p + 1)))).map c1Row ++
          (if 25 * (p + 1) < n then
            [Row.pagination [] (25 * (p + 1)) (n - 1)
              (if min (n - 25 * (p + 1)) 25 = 25 then "Show 25 More" else "Show Remaining")]
           else []))
    ∧ renderVal (pageStore 0) (.arr (List.replicate 60 .null)) [] none false
        = (List.range' 0 25).map c1Row ++ [Row.pagination [] 25 59 "Show 25 More"]
    ∧ renderVal (pageStore 1) (.arr (List.replicate 60 .null)) [] none false
        = (List.range' 0 50).map c1Row ++ [Row.pagination [] 50 59 "Show Remaining"]
    ∧ renderVal (pageStore 2) (.arr (List.replicate 60 .null)) [] none false
        = (List.range' 0 60).map c1Row := by
  have hgen : ∀ n p : Nat,
      renderVal (pageStore p) (.arr (List.replicate n .null)) [] none false
        = (List.range' 0 (min n (25 * (p + 1)))).map c1Row ++
          (if 25 * (p + 1) < n then
            [Row.pagination [] (25 * (p + 1)) (n - 1)
              (if min (n - 25 * (p + 1)) 25 = 25 then "Show 25 More" else "Show Remaining")]
           else []) := by
    intro n p
    rw [renderVal_arr, pageStore_root]
    simp only [List.nil_append, Bool.not_true, Bool.or_false, Bool.true_or, if_true,
      List.length_replicate, gt_iff_lt, PAGE_SIZE]
    rw [renderElems_replicate_null (pageStore p) (fun q hq => pageStore_other p q hq) n 0
      (25 * (p + 1))]
    rw [Nat.sub_zero]
    by_cases hlt : 25 * (p + 1) < n
    · rw [if_pos hlt, if_pos hlt]
      by_cases hb : min (n - 25 * (p + 1)) 25 = 25
      · rw [if_pos (beq_iff_eq.mpr hb), if_pos hb, hb]
        rfl
      · rw [if_neg (by simpa using hb), if_neg hb]
        rfl
    · rw [if_neg hlt, if_neg hlt]
  refine ⟨hgen, ?_, ?_, ?_⟩
  · have h0 := hgen 60 0
    rw [show (25 * (0 + 1)) = 25 by norm_num] at h0
    rw [show min 60 25 = 25 by omega] at h0
    rw [if_pos (by norm_num : (25:Nat) < 60)] at h0
    rw [if_pos (by omega : min (60 - 25) 25 = 25)] at h0
    exact h0
  · have h1 := hgen 60 1
    rw [show (25 * (1 + 1)) = 50 by norm_num] at h1
    rw [show min 60 50 = 50 by omega] at h1
    rw [if_pos (by norm_num : (50:Nat) < 60)] at h1
    rw [if_neg (by omega : ¬ min (60 - 50) 25 = 25)] at h1
    exact h1
  · have h2 := hgen 60 2
    rw [show (25 * (2 + 1)) = 75 by norm_num] at h2
    rw [show min 60 75 = 60 by omega] at h2
    rw [if_neg (by norm_num : ¬ (75:Nat) < 60)] at h2
    simpa using h2

/-! ### Rows of untouched nodes -/

theorem getValue_arr_nil (c : Bool) : getValue (.arr []) c = Cell.collection "[]" "" := by
  cases c <;> rfl

theorem getValue_obj_nil (c : Bool) : getValue (.obj []) c = Cell.collection "\x7b\x7d" "" := by
  cases c <;> rfl

theorem renderVal_fresh (store : Store) (v : JSONValue) (paths : NodePath) (l : String)
    (hide : Bool) (hp : paths ≠ [])
    (h1 : (store paths).expanded = false) (h2 : (store paths).hasBeenExpanded = false) :
    renderVal store v paths (some l) hide
      = [Row.node { path := paths, label := some l, clickable := isCollapsable v,
                    collapsed := true, hidden := hide, cell := getValue v true }] := by
  cases v with
  | arr xs =>
    rw [renderVal_arr, h1, h2]
    simp
  | obj kvs =>
    rw [renderVal_obj, h1, h2]
    simp
  | null =>
    rw [renderVal_scalar store JSONValue.null paths (some l) hide rfl, h1]
    rw [if_pos (List.length_pos.2 hp)]
    rfl
  | bool b =>
    rw [renderVal_scalar store (JSONValue.bool b) paths (some l) hide rfl, h1]
    rw [if_pos (List.length_pos.2 hp)]
    rfl
  | num n =>
    rw [renderVal_scalar store (JSONValue.num n) paths (some l) hide rfl, h1]
    rw [if_pos (List.length_pos.2 hp)]
    rfl
  | str s =>
    rw [renderVal_scalar store (JSONValue.str s) paths (some l) hide rfl, h1]
    rw [if_pos (List.length_pos.2 hp)]
    rfl

theorem initStore_nonroot (q : NodePath) (hq : q ≠ []) :
    (initStore q).expanded = false ∧ (initStore q).hasBeenExpanded = false := by
  constructor
  · simp [initStore, initState, List.length_eq_zero, hq]
  · rfl

theorem renderElems_init_unhidden (xs : List JSONValue) :
    ∀ idx cap : Nat, ∀ d, Row.node d ∈ renderElems initStore xs idx cap [] false →
      d.hidden = false := by
  induction xs with
  | nil => intro idx cap d hd; rw [renderElems_nil] at hd; simp at hd
  | cons x rest ih =>
    intro idx cap d hd
    rw [renderElems_cons] at hd
    by_cases h : idx < cap
    · rw [if_pos h] at hd
      rcases List.mem_append.1 hd with h1 | h2
      · have hq : ([] ++ ["[" ++ toString idx ++ "]"] : NodePath) ≠ [] := by simp
        obtain ⟨he, hb⟩ := initStore_nonroot _ hq
        rw [renderVal_fresh initStore x _ _ false hq he hb] at h1
        rcases List.mem_singleton.1 h1 with h
        injection h with h
        rw [h]
      · exact ih (idx + 1) cap d h2
    · rw [if_neg h] at hd
      simp at hd

theorem renderFields_init_unhidden (kvs : List (String × JSONValue)) :
    ∀ d, Row.node d ∈ renderFields initStore kvs [] false → d.hidden = false := by
  induction kvs with
  | nil => intro d hd; rw [renderFields_nil] at hd; simp at hd
  | cons kv rest ih =>
    obtain ⟨k, v⟩ := kv
    intro d hd
    rw [renderFields_cons] at hd
    rcases List.mem_append.1 hd with h1 | h2
    · have hq : ([] ++ ["." ++ k] : NodePath) ≠ [] := by simp
      obtain ⟨he, hb⟩ := initStore_nonroot _ hq
      rw [renderVal_fresh initStore v _ _ false hq he hb] at h1
      rcases List.mem_singleton.1 h1 with h
      injection h with h
      rw [h]
    · exact ih d h2

/-- C3 counterexample: at the root (where no label is supplied) the
empty array renders zero rows, not exactly one; and a node two levels
deep (the inner null of `[[null]]`) gets no row on an unmodified store,
so not every reachable node yields a row. -/
theorem C3_counterexample :
    (renderVal initStore (.arr []) [] none false).length ≠ 1
    ∧ (renderVal initStore (.arr [.arr [.null]]) [] none false).length < 3 := by
  constructor
  · decide
  · decide

/-- C3 (amended): on an unmodified store every emitted node row is
unhidden; an empty array or object under a label renders as exactly one
non-clickable row with no children; at the root the synthetic root
emits no row of its own, so the empty collections render zero rows
there — and they are the only values rendering zero rows. -/
theorem C3_row_emission :
    (∀ (store : Store) (paths : NodePath) (l : String) (hide : Bool),
      renderVal store (.arr []) paths (some l) hide
        = [Row.node { path := paths, label := some l, clickable := false,
                      collapsed := !(store paths).expanded, hidden := hide,
                      cell := Cell.collection "[]" "" }]
      ∧ renderVal store (.obj []) paths (some l) hide
        = [Row.node { path := paths, label := some l, clickable := false,
                      collapsed := !(store paths).expanded, hidden := hide,
                      cell := Cell.collection "\x7b\x7d" "" }])
    ∧ (renderVal initStore (.arr []) [] none false = []
       ∧ renderVal initStore (.obj []) [] none false = [])
    ∧ (∀ v d, Row.node d ∈ renderVal initStore v [] none false → d.hidden = false)
    ∧ (∀ v, renderVal initStore v [] none false = [] ↔ (v = .arr [] ∨ v = .obj [])) := by
  refine ⟨?_, ⟨by decide, by decide⟩, ?_, ?_⟩
  · intro store paths l hide
    constructor
    · rw [renderVal_arr, getValue_arr_nil]
      have hcoll : isCollapsable (.arr []) = false := by decide
      rw [hcoll]
      simp [renderElems_nil]
    · rw [renderVal_obj, getValue_obj_nil]
      have hcoll : isCollapsable (.obj []) = false := by decide
      rw [hcoll]
      simp [renderFields_nil]
  · intro v d hd
    cases v with
    | arr xs =>
      rw [renderVal_arr] at hd
      simp only [List.nil_append] at hd
      rw [if_pos (by decide : ((initStore []).expanded || (initStore []).hasBeenExpanded) = true)] at hd
      rcases List.mem_append.1 hd with h1 | h2
      · exact renderElems_init_unhidden xs 0 _ d h1
      · split at h2 <;> simp at h2
    | obj kvs =>
      rw [renderVal_obj] at hd
      simp only [List.nil_append] at hd
      rw [if_pos (by decide : ((initStore []).expanded || (initStore []).hasBeenExpanded) = true)] at hd
      exact renderFields_init_unhidden kvs d hd
    | null =>
      rw [renderVal_scalar initStore JSONValue.null [] none false rfl] at hd
      rcases List.mem_singleton.1 hd with h
      injection h with h
      rw [h]
    | bool b =>
      rw [renderVal_scalar initStore (JSONValue.bool b) [] none false rfl] at hd
      rcases List.mem_singleton.1 hd with h
      injection h with h
      rw [h]
    | num n =>
      rw [renderVal_scalar initStore (JSONValue.num n) [] none false rfl] at hd
      rcases List.mem_singleton.1 hd with h
      injection h with h
      rw [h]
    | str s =>
      rw [renderVal_scalar initStore (JSONValue.str s) [] none false rfl] at hd
      rcases List.mem_singleton.1 hd with h
      injection h with h
      rw [h]
  · intro v
    cases v with
    | arr xs =>
      cases xs with
      | nil => simp [(by decide : renderVal initStore (.arr []) [] none false = [])]
      | cons x rest =>
        constructor
        · intro hnil
          rw [renderVal_arr] at hnil
          simp only [List.nil_append] at hnil
          rw [if_pos (by decide : ((initStore []).expanded || (initStore []).hasBeenExpanded) = true)] at hnil
          rw [renderElems_cons] at hnil
          rw [if_pos (by decide : 0 < PAGE_SIZE * ((initStore []).page + 1))] at hnil
          rcases List.append_eq_nil.1 hnil with ⟨hl, -⟩
          rcases List.append_eq_nil.1 hl with ⟨hl2, -⟩
          exact absurd hl2 (renderVal_labelled_ne_nil initStore x _ _ false)
        · intro hor
          rcases hor with h | h <;> simp at h
    | obj kvs =>
      cases kvs with
      | nil => simp [(by decide : renderVal initStore (.obj []) [] none false = [])]
      | cons kv rest =>
        obtain ⟨k, v⟩ := kv
        constructor
        · intro hnil
          rw [renderVal_obj] at hnil
          simp only [List.nil_append] at hnil
          rw [if_pos (by decide : ((initStore []).expanded || (initStore []).hasBeenExpanded) = true)] at hnil
          rw [renderFields_cons] at hnil
          rcases List.append_eq_nil.1 hnil with ⟨hl, -⟩
          exact absurd hl (renderVal_labelled_ne_nil initStore v _ _ false)
        · intro hor
          rcases hor with h | h <;> simp at h
    | null =>
      rw [renderVal_scalar initStore JSONValue.null [] none false rfl]
      simp
    | bool b =>
      rw [renderVal_scalar initStore (JSONValue.bool b) [] none false rfl]
      simp
    | num n =>
      rw [renderVal_scalar initStore (JSONValue.num n) [] none false rfl]
      simp
    | str s =>
      rw [renderVal_scalar initStore (JSONValue.str s) [] none false rfl]
      simp

/-- Witness for C3: the single row of a root boolean is unhidden. -/
theorem C3_row_emission_witness :
    ({ path := [], label := none, clickable := false, collapsed := false,
       hidden := false, cell := Cell.scalar "boolean" "true" } : NodeRowData).hidden = false :=
  C3_row_emission.2.2.1 (.bool true)
    { path := [], label := none, clickable := false, collapsed := false,
      hidden := false, cell := Cell.scalar "boolean" "true" } (by decide)

/-! ### Object field order -/

theorem mem_insertByIdx {x kv : String × JSONValue} :
    ∀ {l}, x ∈ insertByIdx kv l → x = kv ∨ x ∈ l := by
  intro l
  induction l with
  | nil => intro h; simp [insertByIdx] at h; exact Or.inl h
  | cons y ys ih =>
    intro h
    simp only [insertByIdx] at h
    split at h
    · rcases List.mem_cons.1 h with h1 | h1
      · exact Or.inl h1
      · exact Or.inr h1
    · rcases List.mem_cons.1 h with h1 | h1
      · exact Or.inr (by rw [h1]; exact List.mem_cons_self y ys)
      · rcases ih h1 with h2 | h2
        · exact Or.inl h2
        · exact Or.inr (List.mem_cons_of_mem y h2)

theorem mem_sortByIdx {x : String × JSONValue} : ∀ {l}, x ∈ sortByIdx l → x ∈ l := by
  intro l
  induction l with
  | nil => intro h; simp [sortByIdx] at h
  | cons y ys ih =>
    intro h
    simp only [sortByIdx] at h
    rcases mem_insertByIdx h with h1 | h1
    · rw [h1]; exact List.mem_cons_self y ys
    · exact List.mem_cons_of_mem y (ih h1)

theorem mem_jsKeys {x : String × JSONValue} {kvs : List (String × JSONValue)}
    (h : x ∈ jsKeys kvs) : x ∈ kvs := by
  rw [jsKeys] at h
  rcases List.mem_append.1 h with h1 | h1
  · exact (List.mem_filter.1 (mem_sortByIdx h1)).1
  · exact (List.mem_filter.1 h1).1

theorem jsKeys_of_no_index {kvs : List (String × JSONValue)}
    (h : ∀ kv ∈ kvs, isArrayIndex kv.1 = false) : jsKeys kvs = kvs := by
  rw [jsKeys]
  have h1 : kvs.filter (fun kv => isArrayIndex kv.1) = [] := by
    rw [List.filter_eq_nil_iff]
    intro kv hkv
    simp [h kv hkv]
  have h2 : kvs.filter (fun kv => !isArrayIndex kv.1) = kvs := by
    rw [List.filter_eq_self]
    intro kv hkv
    simp [h kv hkv]
  rw [h1, h2]
  rfl

theorem jsonParseFields_null :
    ∀ kvs : List (String × JSONValue), (∀ kv ∈ kvs, kv.2 = JSONValue.null) →
      jsonParseFields kvs = kvs := by
  intro kvs
  induction kvs with
  | nil => intro h; rfl
  | cons kv rest ih =>
    obtain ⟨k, v⟩ := kv
    intro h
    have hv : v = JSONValue.null := h (k, v) (List.mem_cons_self _ _)
    rw [jsonParseFields, ih (fun kv hkv => h kv (List.mem_cons_of_mem _ hkv)), hv]
    rfl

theorem renderFields_null_labels (store : Store) :
    ∀ (kvs : List (String × JSONValue)) (paths : NodePath) (hide : Bool),
      (∀ kv ∈ kvs, kv.2 = JSONValue.null) →
      (renderFields store kvs paths hide).map rowLabel = kvs.map (fun kv => some kv.1) := by
  intro kvs
  induction kvs with
  | nil => intro paths hide h; rw [renderFields_nil]; rfl
  | cons kv rest ih =>
    obtain ⟨k, v⟩ := kv
    intro paths hide h
    have hv : v = JSONValue.null := h (k, v) (List.mem_cons_self _ _)
    subst hv
    rw [renderFields_cons, List.map_append,
      renderVal_scalar store JSONValue.null (paths ++ ["." ++ k]) (some k) hide rfl,
      ih paths hide (fun kv hkv => h kv (List.mem_cons_of_mem _ hkv))]
    rw [if_pos (by simp : (paths ++ ["." ++ k]).length > 0)]
    rfl

/-- C4 counterexample: parsing the document with keys in the order
"2", "1" and rendering its fields yields the rows in numeric order
"1", "2", not in the document's insertion order. -/
theorem C4_counterexample :
    (renderVal initStore (jsonParseValue (.obj [("2", .bool true), ("1", .bool false)]))
        [] none false).map rowLabel ≠ [some "2", some "1"]
    ∧ (renderVal initStore (jsonParseValue (.obj [("2", .bool true), ("1", .bool false)]))
        [] none false).map rowLabel = [some "1", some "2"] := by
  constructor
  · decide
  · decide

/-- C4 (amended): the child rows of a rendered object appear in the
JavaScript own-property order of the parsed object — canonical
array-index keys first in ascending numeric order, then the remaining
keys in their insertion order; in particular, when no key looks like an
array index, the rows follow the document's key insertion order
exactly. -/
theorem C4_object_key_order :
    (∀ kvs : List (String × JSONValue), (∀ kv ∈ kvs, kv.2 = JSONValue.null) →
      (renderVal initStore (jsonParseValue (.obj kvs)) [] none false).map rowLabel
        = (jsKeys kvs).map (fun kv => some kv.1))
    ∧ (∀ kvs : List (String × JSONValue), (∀ kv ∈ kvs, kv.2 = JSONValue.null) →
        (∀ kv ∈ kvs, isArrayIndex kv.1 = false) →
      (renderVal initStore (jsonParseValue (.obj kvs)) [] none false).map rowLabel
        = kvs.map (fun kv => some kv.1)) := by
  have hmain : ∀ kvs : List (String × JSONValue), (∀ kv ∈ kvs, kv.2 = JSONValue.null) →
      (renderVal initStore (jsonParseValue (.obj kvs)) [] none false).map rowLabel
        = (jsKeys kvs).map (fun kv => some kv.1) := by
    intro kvs hnull
    have hpv : jsonParseValue (.obj kvs) = .obj (jsKeys kvs) := by
      rw [jsonParseValue, jsonParseFields_null kvs hnull]
    rw [hpv, renderVal_obj]
    simp only [List.nil_append]
    rw [if_pos (by decide : ((initStore []).expanded || (initStore []).hasBeenExpanded) = true)]
    exact renderFields_null_labels initStore (jsKeys kvs) [] _
      (fun kv hkv => hnull kv (mem_jsKeys hkv))
  refine ⟨hmain, ?_⟩
  intro kvs hnull hnoidx
  rw [hmain kvs hnull, jsKeys_of_no_index hnoidx]

/-- Witness for C4: an object with non-index keys "b", "a" renders its
rows in exactly that insertion order. -/
theorem C4_object_key_order_witness :
    (renderVal initStore (jsonParseValue (.obj [("b", JSONValue.null), ("a", JSONValue.null)]))
        [] none false).map rowLabel = [some "b", some "a"] :=
  C4_object_key_order.2 [("b", JSONValue.null), ("a", JSONValue.null)]
    (by
      intro kv hkv
      rcases List.mem_cons.1 hkv with h | h
      · rw [h]
      · rw [List.mem_singleton.1 h])
    (by decide)

/-! ### Pagination rows come only from arrays at or below their node -/

mutual

theorem renderVal_pagination_path (store : Store) (v : JSONValue) (paths : NodePath)
    (label : Option String) (hide : Bool) :
    ∀ pg a b c, Row.pagination pg a b c ∈ renderVal store v paths label hide →
      ∃ r, pg = paths ++ r := by
  cases v with
  | arr xs =>
    intro pg a b c h
    rw [renderVal_arr] at h
    rcases List.mem_append.1 h with h1 | h2
    · cases label <;> simp at h1
    · split at h2
      · rcases List.mem_append.1 h2 with h3 | h4
        · obtain ⟨s, r, hr⟩ := renderElems_pagination_path store xs 0 _ paths _ pg a b c h3
          exact ⟨s :: r, hr⟩
        · split at h4
          · rcases List.mem_singleton.1 h4 with heq
            injection heq with h1 h2' h3' h4'
            exact ⟨[], by rw [h1, List.append_nil]⟩
          · simp at h4
      · simp at h2
  | obj kvs =>
    intro pg a b c h
    rw [renderVal_obj] at h
    rcases List.mem_append.1 h with h1 | h2
    · cases label <;> simp at h1
    · split at h2
      · obtain ⟨s, r, hr⟩ := renderFields_pagination_path store kvs paths _ pg a b c h2
        exact ⟨s :: r, hr⟩
      · simp at h2
  | null =>
    intro pg a b c h
    rw [renderVal_scalar store JSONValue.null paths label hide rfl] at h
    simp at h
  | bool bb =>
    intro pg a b c h
    rw [renderVal_scalar store (JSONValue.bool bb) paths label hide rfl] at h
    simp at h
  | num n =>
    intro pg a b c h
    rw [renderVal_scalar store (JSONValue.num n) paths label hide rfl] at h
    simp at h
  | str s =>
    intro pg a b c h
    rw [renderVal_scalar store (JSONValue.str s) paths label hide rfl] at h
    simp at h

theorem renderElems_pagination_path (store : Store) (xs : List JSONValue) (idx maxItem : Nat)
    (paths : NodePath) (hide : Bool) :
    ∀ pg a b c, Row.pagination pg a b c ∈ renderElems store xs idx maxItem paths hide →
      ∃ s r, pg = paths ++ s :: r := by
  cases xs with
  | nil => intro pg a b c h; rw [renderElems_nil] at h; simp at h
  | cons x rest =>
    intro pg a b c h
    rw [renderElems_cons] at h
    split at h
    · rcases List.mem_append.1 h with h1 | h2
      · obtain ⟨r, hr⟩ := renderVal_pagination_path store x (paths ++ ["[" ++ toString idx ++ "]"])
          (some (toString idx)) hide pg a b c h1
        refine ⟨"[" ++ toString idx ++ "]", r, ?_⟩
        rw [hr, List.append_assoc]
        rfl
      · exact renderElems_pagination_path store rest (idx + 1) maxItem paths hide pg a b c h2
    · simp at h

theorem renderFields_pagination_path (store : Store) (kvs : List (String × JSONValue))
    (paths : NodePath) (hide : Bool) :
    ∀ pg a b c, Row.pagination pg a b c ∈ renderFields store kvs paths hide →
      ∃ s r, pg = paths ++ s :: r := by
  cases kvs with
  | nil => intro pg a b c h; rw [renderFields_nil] at h; simp at h
  | cons kv rest =>
    obtain ⟨k, v⟩ := kv
    intro pg a b c h
    rw [renderFields_cons] at h
    rcases List.mem_append.1 h with h1 | h2
    · obtain ⟨r, hr⟩ := renderVal_pagination_path store v (paths ++ ["." ++ k])
        (some k) hide pg a b c h1
      refine ⟨"." ++ k, r, ?_⟩
      rw [hr, List.append_assoc]
      rfl
    · exact renderFields_pagination_path store rest paths hide pg a b c h2

end

/-- C10: rendering an object never emits a pagination row for the
object itself (any pagination row in its output belongs to a strictly
deeper array node), and when an object's children are rendered every
key appears — an object of n null-valued keys contributes exactly n
child rows, with no cap, whatever the store (and hence whatever the
node's `page`). -/
theorem C10_objects_not_paginated (store : Store) (kvs : List (String × JSONValue))
    (paths : NodePath) (label : Option String) (hide : Bool) :
    (∀ pg a b c, Row.pagination pg a b c ∈ renderVal store (.obj kvs) paths label hide →
        pg ≠ paths)
    ∧ (∀ keys : List String, ((store paths).expanded || (store paths).hasBeenExpanded) = true →
        (renderVal store (.obj (keys.map (fun k => (k, JSONValue.null)))) paths none hide).length
          = keys.length) := by
  constructor
  · intro pg a b c h
    rw [renderVal_obj] at h
    rcases List.mem_append.1 h with h1 | h2
    · cases label <;> simp at h1
    · split at h2
      · obtain ⟨s, r, hr⟩ := renderFields_pagination_path store kvs paths _ pg a b c h2
        rw [hr]
        exact append_ne_self paths (s :: r) (by simp)
      · simp at h2
  · intro keys hcond
    rw [renderVal_obj]
    simp only [List.nil_append]
    rw [if_pos hcond]
    have hnull : ∀ kv ∈ keys.map (fun k => (k, JSONValue.null)), kv.2 = JSONValue.null := by
      intro kv hkv
      obtain ⟨k, hk, hkv2⟩ := List.mem_map.1 hkv
      rw [← hkv2]
    have hlab := renderFields_null_labels store (keys.map (fun k => (k, JSONValue.null))) paths
      (hide || !(store paths).expanded) hnull
    have hlen : (renderFields store (keys.map (fun k => (k, JSONValue.null))) paths
        (hide || !(store paths).expanded)).length
        = ((renderFields store (keys.map (fun k => (k, JSONValue.null))) paths
            (hide || !(store paths).expanded)).map rowLabel).length := by
      rw [List.length_map]
    rw [hlen, hlab, List.length_map, List.length_map]

/-- Witness for C10: a two-key object at the expanded root yields
exactly two child rows. -/
theorem C10_objects_not_paginated_witness :
    (renderVal initStore (.obj (["a", "b"].map (fun k => (k, JSONValue.null)))) [] none false).length
      = 2 :=
  (C10_objects_not_paginated initStore [] [] none false).2 ["a", "b"] (by decide)
